import Mathlib

/-!
Verification of the data-pipeline layer of a seq2seq NMT framework
(src/utils/reader.py): vocabulary construction and lookup, padding
strategies, segment/batch generation, the on-disk id-cache queue and the
Language bundle.  Python dictionaries are embedded as insertion-ordered
association lists, generators as functions returning lists, and fallible
operations (KeyError, ValueError, AttributeError, numpy shape errors,
sys.exit) as Option/Except values.
-/

namespace Reader

/-! ## Python dict model

A Python dict is an insertion-ordered association list with unique keys.
Assignment `d[k] = v` updates the value in place when the key is present
(keeping its position) and appends a fresh binding otherwise; `d[k]`
returns the bound value or fails; `len(d)` is the number of bindings. -/

def dictInsert {κ ν : Type} [BEq κ] (d : List (κ × ν)) (k : κ) (v : ν) :
    List (κ × ν) :=
  if d.any (fun p => p.1 == k) then
    d.map (fun p => if p.1 == k then (k, v) else p)
  else d ++ [(k, v)]

def dictGet {κ ν : Type} [BEq κ] (d : List (κ × ν)) (k : κ) : Option ν :=
  (d.find? (fun p => p.1 == k)).map Prod.snd

/-! ## Vocabulary (`Vocabulary` in reader.py)

The vocabulary file's first line is `"<N> <D>"` (declared base vocabulary
size and embedding dimension); each following line starts with a word.
`_load_data` inserts the file words with their `enumerate` index, then the
language-identifier tokens and the four reserved tokens at the current
dict length, and finally builds `id_to_word` as `dict(zip(values, keys))`.
The embedding matrix itself is out of scope (numeric weights only). -/

structure VocabFile where
  declaredN : Nat
  embDim : Nat
  words : List String

/-- The loop `for index, line in enumerate(file): word_to_id[w] = index` :
each word is inserted with a running counter as its id. -/
def insertWords (d : List (String × Nat)) (n : Nat) :
    List String → List (String × Nat)
  | [] => d
  | w :: ws => insertWords (dictInsert d w n) (n + 1) ws

/-- The loop `for token in identifiers: word_to_id[token] = len(word_to_id)`
(also used for the four reserved tokens): each token is inserted with the
current dict size as its id. -/
def insertAtLen (d : List (String × Nat)) :
    List String → List (String × Nat)
  | [] => d
  | t :: ts => insertAtLen (dictInsert d t d.length) ts

def reservedTokens : List String := ["<SOS>", "<EOS>", "<UNK>", "<PAD>"]

/-- `word_to_id` as built by `Vocabulary._load_data`: file words by
enumerate index, then language identifiers, then the reserved tokens. -/
def loadWordToId (words langIds : List String) : List (String × Nat) :=
  insertAtLen (insertAtLen (insertWords [] 0 words) langIds) reservedTokens

/-- `id_to_word = dict(zip(word_to_id.values(), word_to_id.keys()))`:
the pairs (value, key) are inserted in order into a fresh dict, a later
duplicate value overwriting an earlier one. -/
def buildIdToWord (d : List (String × Nat)) : List (Nat × String) :=
  d.foldl (fun m p => dictInsert m p.2 p.1) []

structure Vocab where
  wordToId : List (String × Nat)
  idToWord : List (Nat × String)
  vocabSizeRaw : Nat
  embeddingSize : Nat

/-- `Vocabulary._load_data`:
`self._vocab_size = int(first_line[0]) + 4 + len(self._language_identifiers)`
together with the dictionary construction. -/
def loadVocab (file : VocabFile) (langIds : List String) : Vocab :=
  let d := loadWordToId file.words langIds
  { wordToId := d
    idToWord := buildIdToWord d
    vocabSizeRaw := file.declaredN + 4 + langIds.length
    embeddingSize := file.embDim }

/-- The `vocab_size` property: `return self._vocab_size - 1`. -/
def vocab_size (v : Vocab) : Nat := v.vocabSizeRaw - 1

/-- `self._word_to_id['<PAD>']` as used through the `tokens` property;
the default is unreachable for a vocabulary built by `loadVocab`. -/
def padTokenId (v : Vocab) : Nat := (dictGet v.wordToId "<PAD>").getD 0

/-- `self._word_to_id['<UNK>']` by analogy with `padTokenId`. -/
def unkTokenId (v : Vocab) : Nat := (dictGet v.wordToId "<UNK>").getD 0

/-- Argument type of `Vocabulary.__call__`: a string, a supported integer
(`int`, `numpy.int32`, `numpy.int64` all behave identically), or a value
of any other type (bool, float, None, ...). -/
inductive PyExpr where
  | str (s : String)
  | intId (n : Nat)
  | unsupported
  deriving DecidableEq, Repr

inductive VocabValue where
  | id (n : Nat)
  | word (w : String)
  deriving DecidableEq, Repr

/-- The typed failures of `Vocabulary.__call__`: `KeyError` from an absent
dictionary key, `ValueError` raised for an unsupported expression type
(the spec's InvalidKey taxonomy). -/
inductive InvalidKey where
  | keyError
  | valueError
  deriving DecidableEq, Repr

/-- `Vocabulary.__call__`: a string is looked up in `word_to_id`, a
supported integer in `id_to_word` (absence raising KeyError), any other
type raises ValueError. -/
def vocabCall (v : Vocab) : PyExpr → Except InvalidKey VocabValue
  | .str s =>
    match dictGet v.wordToId s with
    | some i => .ok (.id i)
    | none => .error .keyError
  | .intId n =>
    match dictGet v.idToWord n with
    | some w => .ok (.word w)
    | none => .error .keyError
  | .unsupported => .error .valueError

/-- Modelled from the spec: `ids_from_sentence` (imported from
src/utils/utils.py, which is absent from the provided sources) tokenizes a
sentence and maps each word to its id via the vocabulary, unknown words
mapping to the `<UNK>` id.  A sentence is embedded as its token list. -/
def ids_from_sentence (v : Vocab) (line : List String) : List Nat :=
  line.map (fun w => (dictGet v.wordToId w).getD (unkTokenId v))

/-! ## DataQueue.generator

`generator()` iterates over the id-cache file: while the accumulated
segment is below `max_segment_size` the parsed line is appended; otherwise
a deep copy of the segment is yielded, the segment is cleared, and the
loop moves on (the line that triggered the yield is NOT appended).  After
end-of-file the remaining segment is yielded once.  Lines are kept
abstract (their parsed content does not influence segmentation). -/

def dataQueueGenAux {α : Type} (S : Nat) :
    List α → List α → List (List α)
  | [], seg => [seg]
  | l :: rest, seg =>
    if seg.length < S then dataQueueGenAux S rest (seg ++ [l])
    else seg :: dataQueueGenAux S rest []

def dataQueueGenerator {α : Type} (S : Nat) (fileLines : List α) :
    List (List α) :=
  dataQueueGenAux S fileLines []

/-! ## Specification-side auxiliary definitions

`wordPairs n ws` is the explicit association list `[(ws[0], n),
(ws[1], n+1), ...]`; it is the closed form that the insertion loops of
`_load_data` produce when no key collides. -/

def wordPairs (n : Nat) : List String → List (String × Nat)
  | [] => []
  | w :: ws => (w, n) :: wordPairs (n + 1) ws

/-- A vocabulary input is valid when the file words are pairwise distinct
and the file words, the language identifiers and the four reserved tokens
do not collide. -/
def validVocabInput (words langIds : List String) : Prop :=
  words.Nodup ∧ langIds.Nodup ∧
  (∀ w ∈ words, w ∉ langIds) ∧
  (∀ w ∈ words, w ∉ reservedTokens) ∧
  (∀ t ∈ langIds, t ∉ reservedTokens)

instance (words langIds : List String) :
    Decidable (validVocabInput words langIds) := by
  unfold validVocabInput; infer_instance

/-- The spec's end-to-end example file:
first line "2 3", then words hello and world. -/
def demoVocabFile : VocabFile := ⟨2, 3, ["hello", "world"]⟩

def demoVocab : Vocab := loadVocab demoVocabFile ["<2>"]

/-! ## Stable descending sort

`sorted(data, key=lambda x: x[-1], reverse=True)`: Python's sort is
stable, so an element is placed after every earlier element whose key is
at least as large; insertion sort with that placement rule produces the
same (unique) stable descending order. -/

def insertDesc {α : Type} (key : α → Nat) (x : α) : List α → List α
  | [] => [x]
  | y :: ys =>
    if key x < key y then y :: insertDesc key x ys else x :: y :: ys

def sortDesc {α : Type} (key : α → Nat) : List α → List α
  | [] => []
  | x :: xs => insertDesc key x (sortDesc key xs)

/-- `x[-1]` on a converted sample: the trailing true-length field (0 is a
placeholder for the empty row, on which Python raises IndexError; the
fallible wrappers below reject empty rows before using it). -/
def trueLen (r : List Nat) : Nat := r.getLastD 0

/-- The slicing loop `for i in range(0, len(l), S): l[i:i+S]`, which
produces the ceil(len/S) contiguous chunks of size at most S.  (Python
raises ValueError for step 0; all callers pass max_segment_size >= 1.) -/
def chunks {α : Type} (S : Nat) (l : List α) : List (List α) :=
  (List.range ((l.length + S - 1) / S)).map
    (fun i => (l.drop (i * S)).take S)

/-- A Python loop that collects `f line` results and propagates the first
raised exception. -/
def traverseOpt {α β : Type} (f : α → Option β) :
    List α → Option (List β)
  | [] => some []
  | a :: l =>
    match f a, traverseOpt f l with
    | some b, some bs => some (b :: bs)
    | _, _ => none

/-! ## PostPadding -/

/-- One line of `PostPadding.__call__`:
`ids = ids_from_sentence(...); ids.append(len(ids))`. -/
def convertLine (v : Vocab) (line : List String) : List Nat :=
  ids_from_sentence v line ++ [(ids_from_sentence v line).length]

/-- `PostPadding.__call__`: the data is walked chunk by chunk of
max_segment_size, every line converted to ids with the true length
appended ([reader.py 784-796]). -/
def postPadCall (v : Vocab) (S : Nat) (data : List (List String)) :
    List (List Nat) :=
  ((chunks S data).flatten).map (convertLine v)

/-- The loop `while len(row) - 1 < batch_length: row.insert(-1, PAD)`:
PAD cells are inserted in front of the trailing length cell until the id
portion reaches batch_length. -/
def padRow (padId L : Nat) (r : List Nat) : List Nat :=
  r.dropLast ++ List.replicate (L + 1 - r.length) padId ++ [trueLen r]

/-- `PostPadding.create_batch`: sort descending by the trailing field,
read batch_length from the first (longest) row, pad every row, and build
the 2D integer numpy array.  Failure cases of the Python code are mapped
to none: an empty batch (IndexError on sorted_data[0]), an empty row
(IndexError in the sort key) and rows of unequal final length (numpy
cannot build a 2D int array from a ragged list). -/
def createBatchPost (padId : Nat) (data : List (List Nat)) :
    Option (List (List Nat)) :=
  if data.any List.isEmpty then none
  else
    match sortDesc trueLen data with
    | [] => none
    | first :: rest =>
      if ((first :: rest).map (padRow padId (trueLen first))).all
          (fun r => r.length = (padRow padId (trueLen first) first).length)
      then some ((first :: rest).map (padRow padId (trueLen first)))
      else none

/-- Maximum trailing true length over a batch. -/
def maxTrueLen (data : List (List Nat)) : Nat :=
  (data.map trueLen).foldr max 0

/-- A well-formed converted sample: non-empty, and the trailing field
holds the number of preceding id cells (which both padding strategies
guarantee at conversion time). -/
def WFRow (r : List Nat) : Prop := r ≠ [] ∧ trueLen r + 1 = r.length

instance (r : List Nat) : Decidable (WFRow r) := by
  unfold WFRow; infer_instance

/-! ## PrePadding -/

/-- One line of `PrePadding.__call__`: the ids are padded with `<PAD>` up
to the segment length, then written into `numpy.zeros(segment_length+1)`
with the true length in the last cell.  When the line has more ids than
segment_length the while-loop adds nothing and the numpy slice assignment
`data_line[:-1] = ids` fails with a shape error (none). -/
def prePadLine (v : Vocab) (seg : Nat) (line : List String) :
    Option (List Nat) :=
  let ids := ids_from_sentence v line
  let padded := ids ++ List.replicate (seg - ids.length) (padTokenId v)
  if padded.length = seg then some (padded ++ [ids.length]) else none

/-- The value produced by `prePadLine` when it succeeds. -/
def prePadSample (v : Vocab) (seg : Nat) (line : List String) :
    List Nat :=
  ids_from_sentence v line
    ++ List.replicate (seg - (ids_from_sentence v line).length)
        (padTokenId v)
    ++ [(ids_from_sentence v line).length]

/-- `len(ids_from_sentence(vocab, data[index:index+S][0]))`: the fixed
segment length is the id count of the chunk's first line (the slice is
never empty for the chunks the loop produces). -/
def segLength (v : Vocab) (chunk : List (List String)) : Nat :=
  (ids_from_sentence v (chunk.headD [])).length

/-- `PrePadding.__call__` ([reader.py 823-844]): per max-size chunk, the
fixed length is taken from the first line and every line of the chunk is
converted and padded to it; the converted samples of all chunks are
appended into one flat list. -/
def prePadCall (v : Vocab) (S : Nat) (data : List (List String)) :
    Option (List (List Nat)) :=
  (traverseOpt (fun c => traverseOpt (prePadLine v (segLength v c)) c)
      (chunks S data)).map List.flatten

/-- `PrePadding.create_batch`: `numpy.array(sorted(data, key=x[-1],
reverse=True))` — only a stable descending sort by the trailing field,
with no further padding.  An empty row fails in the sort key and a ragged
batch cannot form a rectangular array (none). -/
def createBatchPre (data : List (List Nat)) : Option (List (List Nat)) :=
  if data.any List.isEmpty then none
  else
    match sortDesc trueLen data with
    | [] => some []
    | first :: rest =>
      if (first :: rest).all (fun r => r.length = first.length)
      then some (first :: rest)
      else none

/-! ## MemoryInput -/

/-- `range(0, len(segment) - batch_size + 1, batch_size)` slicing: the
first len/B full batches of size B; the per-segment leftover samples are
dropped.  (Python raises for step 0; batch sizes are positive.) -/
def batchSlices {α : Type} (B : Nat) (seg : List α) : List (List α) :=
  (List.range (seg.length / B)).map (fun i => (seg.drop (i * B)).take B)

/-- `MemoryInput.batch_generator` with shuffle=False (the sklearn shuffle
branch is not taken): each deep-copied max-size segment of the stored
converted data is sliced into full batches, each built by the padder's
`create_batch` (PostPadding, the default padding_type).  The deep copy in
`_segment_generator` means `create_batch`'s in-place row mutation never
reaches the stored data, so the generator is a pure function of it. -/
def memoryBatchGen (padId S B : Nat) (data : List (List Nat)) :
    Option (List (List (List Nat))) :=
  traverseOpt (createBatchPost padId)
    ((chunks S data).map (batchSlices B)).flatten

/-- The MemoryInput pipeline over a Monolingual corpus: `__init__` stores
`self._data = PostPadding(...)(corpora.data)` once, and every call of
`batch_generator` re-walks that stored list. -/
def memoryBatches (v : Vocab) (S B : Nat) (lines : List (List String)) :
    Option (List (List (List Nat))) :=
  memoryBatchGen (padTokenId v) S B (postPadCall v S lines)

/-! ## Language -/

inductive ConfigExit where
  | exit
  deriving DecidableEq, Repr

structure LanguageObj (α : Type) where
  identifier : String
  inputPipelines : List (String × α)
  vocabulary : Vocab

/-- `Language.__init__`: asserts that the input-pipeline dict contains
the keys train, dev and test; a failed assertion is caught, logged and
turned into `sys.exit()` (no instance is produced).  Keys beyond the
three are not inspected. -/
def languageInit {α : Type} (identifier : String)
    (input_pipelines : List (String × α)) (vocabulary : Vocab) :
    Except ConfigExit (LanguageObj α) :=
  if "train" ∈ input_pipelines.map Prod.fst
      ∧ "dev" ∈ input_pipelines.map Prod.fst
      ∧ "test" ∈ input_pipelines.map Prod.fst
  then .ok ⟨identifier, input_pipelines, vocabulary⟩
  else .error .exit

/-- A pipeline mapping with the three required keys plus one extra key. -/
def demoPipelines : List (String × Unit) :=
  [("train", ()), ("dev", ()), ("test", ()), ("extra", ())]

/-- A five-line monolingual corpus over the demo vocabulary. -/
def demoLines : List (List String) :=
  [["hello"], ["world"], ["hello", "world"], ["world"], ["hello"]]

/-! ## Parallel corpus -/

/-- The attributes of a Parallel corpus instance that `_load_data`
touches: the `_separator_token` slot is an Option because no code path
ever assigns it. -/
structure ParallelState where
  dataPath : String
  separatorToken : Option String

/-- `Parallel.__init__` ([reader.py 318-329]): receives a `separator`
argument but only forwards data_path, vocabulary and cuda to the base
constructor; the separator is never stored, so the `_separator_token`
attribute stays unset. -/
def parallelInit (data_path separator : String) : ParallelState :=
  { dataPath := data_path, separatorToken := none }

inductive CorpusError where
  | attributeError
  | emptyFile
  deriving DecidableEq, Repr

/-- The loop of `Parallel._load_data`: each line (trailing newline
stripped) is split on `self._separator_token`; reading that attribute
when it was never assigned raises AttributeError. -/
def parallelLoadDataAux (sep : Option String) :
    List String → Except CorpusError (List (List String))
  | [] => .ok []
  | line :: rest =>
    match sep with
    | none => .error .attributeError
    | some s =>
      match parallelLoadDataAux sep rest with
      | .ok tail => .ok ((line.dropRight 1).splitOn s :: tail)
      | .error e => .error e

/-- `Parallel._load_data`: the loop above, then the empty-file check. -/
def parallelLoadData (st : ParallelState) (fileLines : List String) :
    Except CorpusError (List (List String)) :=
  match parallelLoadDataAux st.separatorToken fileLines with
  | .error e => .error e
  | .ok data => if data.length = 0 then .error .emptyFile else .ok data

/-- `Parallel.initialize_corpus`: `self._data = self._load_data(...)`. -/
def parallelInitializeCorpus (st : ParallelState)
    (fileLines : List String) : Except CorpusError (List (List String)) :=
  parallelLoadData st fileLines

end Reader

namespace Reader

/-! ## Dictionary lemmas -/

theorem dictInsert_fresh {κ ν : Type} [BEq κ] [LawfulBEq κ]
    {d : List (κ × ν)} {k : κ} (v : ν) (h : ∀ p ∈ d, p.1 ≠ k) :
    dictInsert d k v = d ++ [(k, v)] := by
  have hany : d.any (fun p => p.1 == k) = false := by
    simp only [List.any_eq_false]
    intro p hp
    simpa using h p hp
  simp [dictInsert, hany]

theorem dictGet_of_mem {κ ν : Type} [BEq κ] [LawfulBEq κ]
    {d : List (κ × ν)} {k : κ} {v : ν}
    (hnd : (d.map Prod.fst).Nodup) (h : (k, v) ∈ d) :
    dictGet d k = some v := by
  induction d with
  | nil => simp at h
  | cons p rest ih =>
    rw [List.map_cons] at hnd
    obtain ⟨hhead, htail⟩ := List.nodup_cons.mp hnd
    rcases List.mem_cons.mp h with h | h
    · cases h
      simp [dictGet, List.find?_cons_of_pos]
    · have hk : k ∈ rest.map Prod.fst :=
        List.mem_map.mpr ⟨(k, v), h, rfl⟩
      have hne : (p.1 == k) = false := by
        simp only [beq_eq_false_iff_ne, ne_eq]
        intro hc; exact hhead (hc ▸ hk)
      have ih' := ih htail h
      simpa [dictGet, List.find?_cons_of_neg, hne] using ih'

/-! ## wordPairs lemmas -/

theorem wordPairs_keys (n : Nat) (ws : List String) :
    (wordPairs n ws).map Prod.fst = ws := by
  induction ws generalizing n with
  | nil => rfl
  | cons w ws ih => simp [wordPairs, ih]

theorem wordPairs_length (n : Nat) (ws : List String) :
    (wordPairs n ws).length = ws.length := by
  induction ws generalizing n with
  | nil => rfl
  | cons w ws ih => simp [wordPairs, ih]

theorem snd_bound_of_mem_wordPairs {p : String × Nat} {n : Nat}
    {ws : List String} (h : p ∈ wordPairs n ws) :
    n ≤ p.2 ∧ p.2 < n + ws.length := by
  induction ws generalizing n with
  | nil => simp [wordPairs] at h
  | cons w ws ih =>
    rcases List.mem_cons.mp h with h | h
    · subst h
      constructor
      · exact Nat.le_refl n
      · show n < n + (ws.length + 1)
        omega
    · have h1 := ih h
      constructor
      · exact Nat.le_of_succ_le h1.1
      · show p.2 < n + (ws.length + 1)
        omega

theorem fst_mem_of_mem_wordPairs {p : String × Nat} {n : Nat}
    {ws : List String} (h : p ∈ wordPairs n ws) : p.1 ∈ ws := by
  have := wordPairs_keys n ws
  exact this ▸ List.mem_map.mpr ⟨p, h, rfl⟩

theorem get_mem_wordPairs (n : Nat) (ws : List String) (j : Nat)
    (hj : j < ws.length) :
    (ws.get ⟨j, hj⟩, n + j) ∈ wordPairs n ws := by
  induction ws generalizing n j with
  | nil => simp at hj
  | cons w ws ih =>
    cases j with
    | zero => simp [wordPairs]
    | succ j =>
      have hj' : j < ws.length := Nat.lt_of_succ_lt_succ hj
      have := ih (n + 1) j hj'
      have hg : (w :: ws).get ⟨j + 1, hj⟩ = ws.get ⟨j, hj'⟩ := rfl
      rw [hg]
      refine List.mem_cons.mpr (Or.inr ?_)
      have harith : n + 1 + j = n + (j + 1) := by omega
      exact harith ▸ this

theorem wordPairs_snd_nodup (n : Nat) (ws : List String) :
    ((wordPairs n ws).map Prod.snd).Nodup := by
  induction ws generalizing n with
  | nil => simp [wordPairs]
  | cons w ws ih =>
    simp only [wordPairs, List.map_cons, List.nodup_cons]
    refine ⟨?_, ih (n + 1)⟩
    intro hmem
    rcases List.mem_map.mp hmem with ⟨p, hp, hpn⟩
    have := snd_bound_of_mem_wordPairs hp
    omega

/-! ## Explicit form of the `_load_data` insertion loops -/

theorem insertWords_eq (ws : List String) :
    ∀ (n : Nat) (d0 : List (String × Nat)), ws.Nodup →
      (∀ p ∈ d0, p.1 ∉ ws) →
      insertWords d0 n ws = d0 ++ wordPairs n ws := by
  induction ws with
  | nil => intro n d0 _ _; simp [insertWords, wordPairs]
  | cons w ws ih =>
    intro n d0 hnd hfresh
    have hw : ∀ p ∈ d0, p.1 ≠ w := by
      intro p hp hc
      exact hfresh p hp (hc ▸ List.mem_cons_self w ws)
    rw [insertWords, dictInsert_fresh n hw,
        ih (n + 1) (d0 ++ [(w, n)]) (List.nodup_cons.mp hnd).2 ?_]
    · simp [wordPairs]
    · intro p hp
      rcases List.mem_append.mp hp with hp | hp
      · intro hc
        exact hfresh p hp (List.mem_cons_of_mem w hc)
      · have : p = (w, n) := by simpa using hp
        subst this
        exact (List.nodup_cons.mp hnd).1

theorem insertAtLen_eq (ts : List String) :
    ∀ d0 : List (String × Nat), ts.Nodup →
      (∀ p ∈ d0, p.1 ∉ ts) →
      insertAtLen d0 ts = d0 ++ wordPairs d0.length ts := by
  induction ts with
  | nil => intro d0 _ _; simp [insertAtLen, wordPairs]
  | cons t ts ih =>
    intro d0 hnd hfresh
    have ht : ∀ p ∈ d0, p.1 ≠ t := by
      intro p hp hc
      exact hfresh p hp (hc ▸ List.mem_cons_self t ts)
    rw [insertAtLen, dictInsert_fresh d0.length ht,
        ih (d0 ++ [(t, d0.length)]) (List.nodup_cons.mp hnd).2 ?_]
    · simp [wordPairs]
    · intro p hp
      rcases List.mem_append.mp hp with hp | hp
      · intro hc
        exact hfresh p hp (List.mem_cons_of_mem t hc)
      · have : p = (t, d0.length) := by simpa using hp
        subst this
        exact (List.nodup_cons.mp hnd).1

theorem reservedTokens_nodup : reservedTokens.Nodup := by decide

/-- Under a valid input, every insertion of `_load_data` appends a fresh
binding, so `word_to_id` is the concatenation of the file words (with
their enumerate indices), the language identifiers and the four reserved
tokens. -/
theorem loadWordToId_eq (words langIds : List String)
    (h : validVocabInput words langIds) :
    loadWordToId words langIds =
      wordPairs 0 words ++ wordPairs words.length langIds ++
        wordPairs (words.length + langIds.length) reservedTokens := by
  obtain ⟨hw, hl, hwl, hwr, hlr⟩ := h
  unfold loadWordToId
  rw [insertWords_eq words 0 [] hw (by simp)]
  simp only [List.nil_append]
  rw [insertAtLen_eq langIds (wordPairs 0 words) hl ?_, wordPairs_length]
  · rw [insertAtLen_eq reservedTokens _ reservedTokens_nodup ?_]
    · simp [wordPairs_length]
    · intro p hp
      rcases List.mem_append.mp hp with hp | hp
      · exact hwr _ (fst_mem_of_mem_wordPairs hp)
      · exact hlr _ (fst_mem_of_mem_wordPairs hp)
  · intro p hp
    exact hwl _ (fst_mem_of_mem_wordPairs hp)

theorem loadWordToId_keys_nodup (words langIds : List String)
    (h : validVocabInput words langIds) :
    ((loadWordToId words langIds).map Prod.fst).Nodup := by
  obtain ⟨hw, hl, hwl, hwr, hlr⟩ := h
  rw [loadWordToId_eq words langIds ⟨hw, hl, hwl, hwr, hlr⟩]
  simp only [List.map_append, wordPairs_keys]
  rw [List.nodup_append, List.nodup_append]
  refine ⟨⟨hw, hl, ?_⟩, reservedTokens_nodup, ?_⟩
  · intro t ht hr; exact hwl t ht hr
  · intro w hw' hmem
    rcases List.mem_append.mp hw' with hw' | hw'
    · exact hwr w hw' hmem
    · exact hlr w hw' hmem

theorem loadWordToId_snd_nodup (words langIds : List String)
    (h : validVocabInput words langIds) :
    ((loadWordToId words langIds).map Prod.snd).Nodup := by
  rw [loadWordToId_eq words langIds h]
  simp only [List.map_append]
  rw [List.nodup_append, List.nodup_append]
  refine ⟨⟨wordPairs_snd_nodup 0 words, wordPairs_snd_nodup _ langIds, ?_⟩,
    wordPairs_snd_nodup _ reservedTokens, ?_⟩
  · intro i hi hj
    rcases List.mem_map.mp hi with ⟨p, hp, rfl⟩
    rcases List.mem_map.mp hj with ⟨q, hq, hqi⟩
    have h1 := snd_bound_of_mem_wordPairs hp
    have h2 := snd_bound_of_mem_wordPairs hq
    omega
  · intro i hi hmem
    rcases List.mem_map.mp hmem with ⟨q, hq, hqi⟩
    have h2 := snd_bound_of_mem_wordPairs hq
    rcases List.mem_append.mp hi with hi | hi
    · rcases List.mem_map.mp hi with ⟨p, hp, hpi⟩
      have h1 := snd_bound_of_mem_wordPairs hp
      have hlen : reservedTokens.length = 4 := by decide
      omega
    · rcases List.mem_map.mp hi with ⟨p, hp, hpi⟩
      have h1 := snd_bound_of_mem_wordPairs hp
      omega

/-- `dict(zip(values, keys))` really inverts `word_to_id` when the ids are
pairwise distinct: every insert is fresh, so the result is the list of
swapped pairs. -/
theorem buildIdToWord_aux (d : List (String × Nat)) :
    ∀ m0 : List (Nat × String), ((d.map Prod.snd).Nodup) →
      (∀ p ∈ d, ∀ q ∈ m0, q.1 ≠ p.2) →
      d.foldl (fun m p => dictInsert m p.2 p.1) m0
        = m0 ++ d.map (fun p => (p.2, p.1)) := by
  induction d with
  | nil => intro m0 _ _; simp
  | cons p d ih =>
    intro m0 hnd hfresh
    rw [List.map_cons] at hnd
    obtain ⟨hhead, htail⟩ := List.nodup_cons.mp hnd
    have hp : ∀ q ∈ m0, q.1 ≠ p.2 :=
      fun q hq => hfresh p (List.mem_cons_self p d) q hq
    simp only [List.foldl_cons]
    rw [dictInsert_fresh p.1 hp, ih (m0 ++ [(p.2, p.1)]) htail ?_]
    · simp
    · intro r hr q hq
      rcases List.mem_append.mp hq with hq | hq
      · exact hfresh r (List.mem_cons_of_mem p hr) q hq
      · have : q = (p.2, p.1) := by simpa using hq
        subst this
        intro hc
        have hc' : p.2 = r.2 := hc
        refine hhead ?_
        rw [hc']
        exact List.mem_map.mpr ⟨r, hr, rfl⟩

theorem buildIdToWord_eq (d : List (String × Nat))
    (hnd : (d.map Prod.snd).Nodup) :
    buildIdToWord d = d.map (fun p => (p.2, p.1)) := by
  have := buildIdToWord_aux d [] hnd (by simp)
  simpa [buildIdToWord] using this

/-! ## Sorting lemmas -/

theorem insertDesc_perm {α : Type} (key : α → Nat) (x : α) (l : List α) :
    (insertDesc key x l).Perm (x :: l) := by
  induction l with
  | nil => exact List.Perm.refl _
  | cons y ys ih =>
    by_cases h : key x < key y
    · rw [insertDesc, if_pos h]
      exact (ih.cons y).trans (List.Perm.swap x y ys)
    · rw [insertDesc, if_neg h]

theorem sortDesc_perm {α : Type} (key : α → Nat) (l : List α) :
    (sortDesc key l).Perm l := by
  induction l with
  | nil => exact List.Perm.refl _
  | cons x xs ih =>
    exact (insertDesc_perm key x (sortDesc key xs)).trans (ih.cons x)

theorem pairwise_insertDesc {α : Type} (key : α → Nat) (x : α)
    {l : List α} (h : l.Pairwise (fun a b => key b ≤ key a)) :
    (insertDesc key x l).Pairwise (fun a b => key b ≤ key a) := by
  induction l with
  | nil => simp [insertDesc]
  | cons y ys ih =>
    obtain ⟨hy, hys⟩ := List.pairwise_cons.mp h
    by_cases hlt : key x < key y
    · rw [insertDesc, if_pos hlt]
      refine List.pairwise_cons.mpr ⟨?_, ih hys⟩
      intro b hb
      rcases List.mem_cons.mp
          ((insertDesc_perm key x ys).mem_iff.mp hb) with hb | hb
      · subst hb; exact Nat.le_of_lt hlt
      · exact hy b hb
    · rw [insertDesc, if_neg hlt]
      refine List.pairwise_cons.mpr ⟨?_, h⟩
      intro b hb
      rcases List.mem_cons.mp hb with hb | hb
      · subst hb; exact Nat.le_of_not_lt hlt
      · exact Nat.le_trans (hy b hb) (Nat.le_of_not_lt hlt)

theorem pairwise_sortDesc {α : Type} (key : α → Nat) (l : List α) :
    (sortDesc key l).Pairwise (fun a b => key b ≤ key a) := by
  induction l with
  | nil => simp [sortDesc]
  | cons x xs ih => exact pairwise_insertDesc key x ih

theorem sortDesc_key_le_head {α : Type} (key : α → Nat) (l : List α)
    (first : α) (rest : List α) (heq : sortDesc key l = first :: rest) :
    ∀ r ∈ l, key r ≤ key first := by
  intro r hr
  have hmem : r ∈ sortDesc key l := (sortDesc_perm key l).mem_iff.mpr hr
  rw [heq] at hmem
  rcases List.mem_cons.mp hmem with hmem | hmem
  · subst hmem; exact Nat.le_refl _
  · have hp := pairwise_sortDesc key l
    rw [heq] at hp
    exact (List.pairwise_cons.mp hp).1 r hmem

/-! ## Row and padding lemmas -/

theorem trueLen_concat (xs : List Nat) (a : Nat) :
    trueLen (xs ++ [a]) = a := by
  simp [trueLen]

theorem wfRow_decomp {r : List Nat} (h : WFRow r) :
    r = r.dropLast ++ [r.dropLast.length]
      ∧ trueLen r = r.dropLast.length := by
  obtain ⟨hne, hlen⟩ := h
  have hd : r.dropLast ++ [r.getLast hne] = r :=
    List.dropLast_append_getLast hne
  have hlast : trueLen r = r.getLast hne := by
    simp [trueLen, List.getLastD_eq_getLast?, List.getLast?_eq_getLast r hne]
  have hlen2 : r.dropLast.length = r.length - 1 := by
    simp [List.length_dropLast]
  have h1 : trueLen r = r.dropLast.length := by omega
  refine ⟨?_, h1⟩
  conv_lhs => rw [← hd]
  rw [← h1, hlast]

theorem convertLine_wf (v : Vocab) (line : List String) :
    WFRow (convertLine v line) := by
  unfold convertLine WFRow
  constructor
  · simp
  · rw [trueLen_concat]; simp

theorem padRow_spec (padId L : Nat) {r : List Nat} (h : WFRow r)
    (hle : trueLen r ≤ L) :
    padRow padId L r
        = r.dropLast ++ List.replicate (L - trueLen r) padId ++ [trueLen r]
      ∧ (padRow padId L r).length = L + 1
      ∧ trueLen (padRow padId L r) = trueLen r := by
  obtain ⟨hr, hlen⟩ := wfRow_decomp h
  have hrlen : r.length = r.dropLast.length + 1 := by
    conv_lhs => rw [hr]
    simp
  have harith : L + 1 - r.length = L - trueLen r := by omega
  have e1 : padRow padId L r
      = r.dropLast ++ List.replicate (L - trueLen r) padId
          ++ [trueLen r] := by
    unfold padRow
    rw [harith]
  refine ⟨e1, ?_, ?_⟩
  · rw [e1]
    simp only [List.length_append, List.length_replicate,
      List.length_cons, List.length_nil]
    omega
  · rw [e1, trueLen_concat]

theorem maxTrueLen_cons (a : List Nat) (l : List (List Nat)) :
    maxTrueLen (a :: l) = max (trueLen a) (maxTrueLen l) := rfl

theorem le_maxTrueLen {data : List (List Nat)} {r : List Nat}
    (h : r ∈ data) : trueLen r ≤ maxTrueLen data := by
  induction data with
  | nil => simp at h
  | cons a l ih =>
    rw [maxTrueLen_cons]
    rcases List.mem_cons.mp h with h | h
    · subst h; exact Nat.le_max_left _ _
    · exact Nat.le_trans (ih h) (Nat.le_max_right _ _)

theorem maxTrueLen_le {data : List (List Nat)} {m : Nat}
    (h : ∀ r ∈ data, trueLen r ≤ m) : maxTrueLen data ≤ m := by
  induction data with
  | nil => exact Nat.zero_le m
  | cons a l ih =>
    rw [maxTrueLen_cons]
    exact Nat.max_le.mpr ⟨h a (List.mem_cons_self a l),
      ih (fun r hr => h r (List.mem_cons_of_mem a hr))⟩

/-! ## PostPadding.create_batch: full behaviour under well-formed input -/

theorem createBatchPost_ex (padId : Nat) (data : List (List Nat))
    (hne : data ≠ []) (hwf : ∀ r ∈ data, WFRow r) :
    ∃ out, createBatchPost padId data = some out
      ∧ out = (sortDesc trueLen data).map (padRow padId (maxTrueLen data))
      ∧ out.length = data.length
      ∧ (∀ r ∈ out, r.length = maxTrueLen data + 1)
      ∧ List.Pairwise (fun a b => trueLen b ≤ trueLen a) out
      ∧ (∀ r ∈ out, ∃ ids : List Nat, ids.length ≤ maxTrueLen data ∧
          r = ids ++ List.replicate (maxTrueLen data - ids.length) padId
              ++ [ids.length]) := by
  have hany : data.any List.isEmpty = false := by
    rw [List.any_eq_false]
    intro r hr
    simpa using (hwf r hr).1
  rcases hsort : sortDesc trueLen data with _ | ⟨first, rest⟩
  · exfalso
    have := (sortDesc_perm trueLen data).length_eq
    rw [hsort] at this
    exact hne (List.length_eq_zero.mp this.symm)
  · have hmemdata : ∀ r ∈ first :: rest, r ∈ data := by
      intro r hr
      exact (sortDesc_perm trueLen data).mem_iff.mp (hsort ▸ hr)
    have hL : trueLen first = maxTrueLen data := by
      refine Nat.le_antisymm
        (le_maxTrueLen (hmemdata first (List.mem_cons_self first rest))) ?_
      exact maxTrueLen_le (sortDesc_key_le_head trueLen data first rest hsort)
    have hrowfacts : ∀ r ∈ first :: rest,
        (padRow padId (trueLen first) r).length = trueLen first + 1 := by
      intro r hr
      exact (padRow_spec padId (trueLen first) (hwf r (hmemdata r hr))
        (hL ▸ le_maxTrueLen (hmemdata r hr))).2.1
    have hall : ((first :: rest).map (padRow padId (trueLen first))).all
        (fun r => r.length
          = (padRow padId (trueLen first) first).length) = true := by
      rw [List.all_eq_true]
      intro x hx
      rcases List.mem_map.mp hx with ⟨r, hr, rfl⟩
      have h1 := hrowfacts r hr
      have h2 := hrowfacts first (List.mem_cons_self first rest)
      simp [h1, h2]
    have hout : createBatchPost padId data
        = some ((first :: rest).map (padRow padId (trueLen first))) := by
      unfold createBatchPost
      rw [hany, hsort]
      simp only [Bool.false_eq_true, if_false]
      rw [if_pos hall]
    refine ⟨(first :: rest).map (padRow padId (trueLen first)),
      hout, ?_, ?_, ?_, ?_, ?_⟩
    · rw [hL]
    · rw [List.length_map]
      have := (sortDesc_perm trueLen data).length_eq
      rw [hsort] at this
      exact this
    · intro r hr
      rcases List.mem_map.mp hr with ⟨s, hs, rfl⟩
      rw [hrowfacts s hs, hL]
    · rw [List.pairwise_map]
      have hp := pairwise_sortDesc trueLen data
      rw [hsort] at hp
      refine List.Pairwise.imp_of_mem ?_ hp
      intro a b ha hb hab
      have hta := (padRow_spec padId (trueLen first) (hwf a (hmemdata a ha))
        (hL ▸ le_maxTrueLen (hmemdata a ha))).2.2
      have htb := (padRow_spec padId (trueLen first) (hwf b (hmemdata b hb))
        (hL ▸ le_maxTrueLen (hmemdata b hb))).2.2
      rw [hta, htb]
      exact hab
    · intro r hr
      rcases List.mem_map.mp hr with ⟨s, hs, rfl⟩
      have hwfs := hwf s (hmemdata s hs)
      have hles : trueLen s ≤ maxTrueLen data :=
        le_maxTrueLen (hmemdata s hs)
      have he := (padRow_spec padId (trueLen first) hwfs (hL ▸ hles)).1
      obtain ⟨hdec, hsl⟩ := wfRow_decomp hwfs
      refine ⟨s.dropLast, ?_, ?_⟩
      · omega
      · rw [he, hL, hsl]

/-! ## PrePadding lemmas -/

theorem prePadLine_some (v : Vocab) (seg : Nat) (line : List String)
    (h : (ids_from_sentence v line).length ≤ seg) :
    prePadLine v seg line = some (prePadSample v seg line)
      ∧ (prePadSample v seg line).length = seg + 1 := by
  have hlen : (ids_from_sentence v line
      ++ List.replicate (seg - (ids_from_sentence v line).length)
          (padTokenId v)).length = seg := by
    simp only [List.length_append, List.length_replicate]
    omega
  constructor
  · simp only [prePadLine]
    rw [if_pos hlen]
    rfl
  · simp only [prePadSample, List.length_append, List.length_replicate,
      List.length_cons, List.length_nil]
    omega

theorem traverseOpt_eq_map {α β : Type} (f : α → Option β) (g : α → β)
    (l : List α) (h : ∀ a ∈ l, f a = some (g a)) :
    traverseOpt f l = some (l.map g) := by
  induction l with
  | nil => rfl
  | cons a l ih =>
    rw [traverseOpt, h a (List.mem_cons_self a l),
      ih (fun b hb => h b (List.mem_cons_of_mem a hb))]
    rfl

theorem createBatchPre_sorts (batch : List (List Nat)) (hne : batch ≠ [])
    (hrows : ∀ r ∈ batch, r ≠ [])
    (heqlen : ∀ r ∈ batch, r.length = (batch.headD []).length) :
    createBatchPre batch = some (sortDesc trueLen batch)
      ∧ (sortDesc trueLen batch).Perm batch
      ∧ List.Pairwise (fun a b => trueLen b ≤ trueLen a)
          (sortDesc trueLen batch) := by
  have hany : batch.any List.isEmpty = false := by
    rw [List.any_eq_false]
    intro r hr
    simpa using hrows r hr
  rcases hsort : sortDesc trueLen batch with _ | ⟨first, rest⟩
  · exfalso
    have := (sortDesc_perm trueLen batch).length_eq
    rw [hsort] at this
    exact hne (List.length_eq_zero.mp this.symm)
  · have hmembatch : ∀ r ∈ first :: rest, r ∈ batch := by
      intro r hr
      exact (sortDesc_perm trueLen batch).mem_iff.mp (hsort ▸ hr)
    have hall : ((first :: rest).all
        (fun r => r.length = first.length)) = true := by
      rw [List.all_eq_true]
      intro r hr
      have h1 := heqlen r (hmembatch r hr)
      have h2 := heqlen first (hmembatch first (List.mem_cons_self _ _))
      simp [h1, h2]
    refine ⟨?_, hsort ▸ sortDesc_perm trueLen batch,
      hsort ▸ pairwise_sortDesc trueLen batch⟩
    unfold createBatchPre
    rw [hany, hsort]
    simp only [Bool.false_eq_true, if_false]
    rw [if_pos hall]

end Reader

namespace Reader

/-! ## First claim theorems (vocabulary size, id-cache segmentation) -/

/-- C3: for every vocabulary file declaring N base words and every list of
k language identifiers, the constructed Vocabulary has raw vocab size
N + k + 4 and its `vocab_size` property reports that value minus 1. -/
theorem vocab_size_formula (file : VocabFile) (langIds : List String) :
    (loadVocab file langIds).vocabSizeRaw
        = file.declaredN + langIds.length + 4
      ∧ vocab_size (loadVocab file langIds)
        = file.declaredN + langIds.length + 4 - 1 := by
  constructor
  · simp [loadVocab]; omega
  · simp [loadVocab, vocab_size]; omega

/-- C1 (code bug witness): on an id-cache file of 3 lines with
max_segment_size 2, `DataQueue.generator` yields the segments
[line1, line2] and [] — two segments whose sizes sum to 2, not 3: the
third line is silently discarded at the segment boundary instead of being
carried into the next segment, contradicting both the claimed
conservation (sizes summing to M) and the pipeline's own contract that a
full iteration includes all data samples. -/
theorem dataQueue_generator_drops_boundary_line :
    dataQueueGenerator 2 [1, 2, 3] = [[1, 2], []]
      ∧ ((dataQueueGenerator 2 [1, 2, 3]).map List.length).sum = 2 := by
  constructor <;> rfl

/-- C4: for every Vocabulary built from a valid file, the reserved tokens
SOS, EOS, UNK, PAD receive the ids M+k, M+k+1, M+k+2, M+k+3 (M file
words, k language identifiers) — the 4 highest ids in that fixed relative
order, every non-reserved entry lying strictly below them — and the j-th
language identifier receives id M+j, so the language identifiers occupy
the ids immediately preceding the reserved block. -/
theorem reserved_tokens_occupy_highest_ids (file : VocabFile)
    (langIds : List String) (h : validVocabInput file.words langIds) :
    (dictGet (loadVocab file langIds).wordToId "<SOS>"
        = some (file.words.length + langIds.length)) ∧
    (dictGet (loadVocab file langIds).wordToId "<EOS>"
        = some (file.words.length + langIds.length + 1)) ∧
    (dictGet (loadVocab file langIds).wordToId "<UNK>"
        = some (file.words.length + langIds.length + 2)) ∧
    (dictGet (loadVocab file langIds).wordToId "<PAD>"
        = some (file.words.length + langIds.length + 3)) ∧
    (∀ p ∈ (loadVocab file langIds).wordToId, p.1 ∉ reservedTokens →
        p.2 < file.words.length + langIds.length) ∧
    (∀ j (hj : j < langIds.length),
        dictGet (loadVocab file langIds).wordToId (langIds.get ⟨j, hj⟩)
          = some (file.words.length + j)) := by
  have hw : (loadVocab file langIds).wordToId
      = loadWordToId file.words langIds := rfl
  have hnd := loadWordToId_keys_nodup file.words langIds h
  have heq := loadWordToId_eq file.words langIds h
  refine ⟨?_, ?_, ?_, ?_, ?_, ?_⟩
  · rw [hw]
    refine dictGet_of_mem hnd ?_
    rw [heq]
    refine List.mem_append.mpr (Or.inr ?_)
    simp [wordPairs, reservedTokens]
  · rw [hw]
    refine dictGet_of_mem hnd ?_
    rw [heq]
    refine List.mem_append.mpr (Or.inr ?_)
    simp [wordPairs, reservedTokens]
  · rw [hw]
    refine dictGet_of_mem hnd ?_
    rw [heq]
    refine List.mem_append.mpr (Or.inr ?_)
    simp [wordPairs, reservedTokens]
  · rw [hw]
    refine dictGet_of_mem hnd ?_
    rw [heq]
    refine List.mem_append.mpr (Or.inr ?_)
    simp [wordPairs, reservedTokens]
  · intro p hp hres
    rw [hw, heq] at hp
    rcases List.mem_append.mp hp with hp | hp
    · rcases List.mem_append.mp hp with hp | hp
      · have := snd_bound_of_mem_wordPairs hp
        omega
      · have := snd_bound_of_mem_wordPairs hp
        omega
    · exact absurd (fst_mem_of_mem_wordPairs hp) hres
  · intro j hj
    rw [hw]
    refine dictGet_of_mem hnd ?_
    rw [heq]
    refine List.mem_append.mpr (Or.inl (List.mem_append.mpr (Or.inr ?_)))
    exact get_mem_wordPairs file.words.length langIds j hj

theorem reserved_tokens_occupy_highest_ids_witness :
    validVocabInput demoVocabFile.words ["<2>"] ∧
    dictGet demoVocab.wordToId "<SOS>" = some 3 ∧
    dictGet demoVocab.wordToId "<PAD>" = some 6 ∧
    dictGet demoVocab.wordToId "<2>" = some 2 :=
  ⟨by decide,
   (reserved_tokens_occupy_highest_ids demoVocabFile ["<2>"] (by decide)).1,
   (reserved_tokens_occupy_highest_ids demoVocabFile ["<2>"]
      (by decide)).2.2.2.1,
   (reserved_tokens_occupy_highest_ids demoVocabFile ["<2>"]
      (by decide)).2.2.2.2.2 0 (by decide)⟩

/-- C6: `Vocabulary.__call__` fails with a typed error for every absent
key (KeyError) and for every expression of unsupported type (ValueError),
and succeeds on present keys: a present string returns its id and a
present supported-integer id returns its word. -/
theorem vocab_lookup_invalid_key :
    (∀ (v : Vocab) (s : String), dictGet v.wordToId s = none →
        vocabCall v (.str s) = .error .keyError) ∧
    (∀ (v : Vocab) (n : Nat), dictGet v.idToWord n = none →
        vocabCall v (.intId n) = .error .keyError) ∧
    (∀ v : Vocab, vocabCall v .unsupported = .error .valueError) ∧
    (∀ (v : Vocab) (s : String) (i : Nat), dictGet v.wordToId s = some i →
        vocabCall v (.str s) = .ok (.id i)) ∧
    (∀ (v : Vocab) (n : Nat) (w : String), dictGet v.idToWord n = some w →
        vocabCall v (.intId n) = .ok (.word w)) := by
  refine ⟨?_, ?_, ?_, ?_, ?_⟩
  · intro v s hnone; simp [vocabCall, hnone]
  · intro v n hnone; simp [vocabCall, hnone]
  · intro v; rfl
  · intro v s i hsome; simp [vocabCall, hsome]
  · intro v n w hsome; simp [vocabCall, hsome]

theorem vocab_lookup_invalid_key_witness :
    dictGet demoVocab.wordToId "question" = none ∧
    vocabCall demoVocab (.str "question") = .error .keyError ∧
    dictGet demoVocab.idToWord 42 = none ∧
    vocabCall demoVocab (.intId 42) = .error .keyError ∧
    vocabCall demoVocab .unsupported = .error .valueError ∧
    dictGet demoVocab.wordToId "hello" = some 0 ∧
    vocabCall demoVocab (.str "hello") = .ok (.id 0) ∧
    dictGet demoVocab.idToWord 0 = some "hello" ∧
    vocabCall demoVocab (.intId 0) = .ok (.word "hello") :=
  ⟨by decide,
   vocab_lookup_invalid_key.1 demoVocab "question" (by decide),
   by decide,
   vocab_lookup_invalid_key.2.1 demoVocab 42 (by decide),
   vocab_lookup_invalid_key.2.2.1 demoVocab,
   by decide,
   vocab_lookup_invalid_key.2.2.2.1 demoVocab "hello" 0 (by decide),
   by decide,
   vocab_lookup_invalid_key.2.2.2.2 demoVocab 0 "hello" (by decide)⟩

/-- C8: for every word present in a Vocabulary built from a valid file,
encoding it to its id via `Vocabulary.__call__` and decoding that id back
yields the original word; an unknown word is mapped to the `<UNK>` id by
the (spec-modelled) sentence encoder and is not required to round-trip. -/
theorem vocab_encode_decode_roundtrip (file : VocabFile)
    (langIds : List String) (h : validVocabInput file.words langIds) :
    (∀ w i, (w, i) ∈ (loadVocab file langIds).wordToId →
        vocabCall (loadVocab file langIds) (.str w) = .ok (.id i) ∧
        vocabCall (loadVocab file langIds) (.intId i) = .ok (.word w)) ∧
    (∀ w, dictGet (loadVocab file langIds).wordToId w = none →
        ids_from_sentence (loadVocab file langIds) [w]
          = [unkTokenId (loadVocab file langIds)]) := by
  have hw : (loadVocab file langIds).wordToId
      = loadWordToId file.words langIds := rfl
  have hi : (loadVocab file langIds).idToWord
      = buildIdToWord (loadWordToId file.words langIds) := rfl
  have hkeys := loadWordToId_keys_nodup file.words langIds h
  have hvals := loadWordToId_snd_nodup file.words langIds h
  constructor
  · intro w i hmem
    rw [hw] at hmem
    have hget : dictGet (loadWordToId file.words langIds) w = some i :=
      dictGet_of_mem hkeys hmem
    constructor
    · simp [vocabCall, hw, hget]
    · have hswap := buildIdToWord_eq (loadWordToId file.words langIds) hvals
      have hmem2 : (i, w) ∈ (loadWordToId file.words langIds).map
          (fun p => (p.2, p.1)) :=
        List.mem_map.mpr ⟨(w, i), hmem, rfl⟩
      have hkeys2 : (((loadWordToId file.words langIds).map
          (fun p => (p.2, p.1))).map Prod.fst).Nodup := by
        simpa [List.map_map, Function.comp] using hvals
      have hget2 := dictGet_of_mem hkeys2 hmem2
      simp [vocabCall, hi, hswap, hget2]
  · intro w hnone
    simp [ids_from_sentence, hnone]

theorem vocab_encode_decode_roundtrip_witness :
    validVocabInput demoVocabFile.words ["<2>"] ∧
    ("world", 1) ∈ demoVocab.wordToId ∧
    vocabCall demoVocab (.str "world") = .ok (.id 1) ∧
    vocabCall demoVocab (.intId 1) = .ok (.word "world") ∧
    dictGet demoVocab.wordToId "question" = none ∧
    ids_from_sentence demoVocab ["question"] = [unkTokenId demoVocab] :=
  ⟨by decide, by decide,
   ((vocab_encode_decode_roundtrip demoVocabFile ["<2>"] (by decide)).1
      "world" 1 (by decide)).1,
   ((vocab_encode_decode_roundtrip demoVocabFile ["<2>"] (by decide)).1
      "world" 1 (by decide)).2,
   by decide,
   (vocab_encode_decode_roundtrip demoVocabFile ["<2>"] (by decide)).2
      "question" (by decide)⟩

/-- C2 (counterexample): on the chunk [["hello"], ["hello", "world"]]
with max_segment_size 2 — a plain list of raw sentences — the second
sentence has more ids (2) than the chunk's first sentence (1), the
while-loop adds no padding, and the numpy assignment
`data_line[:-1] = ids` fails on the shape mismatch: conversion raises
instead of producing converted samples, so the claim's universal
quantification over every list of raw sentences fails. -/
theorem prePadding_longer_line_fails :
    prePadCall demoVocab 2 [["hello"], ["hello", "world"]] = none := by
  decide

/-- C2 (amended): for every list of raw sentences in which, within each
max_segment_size chunk, no sentence tokenizes to more ids than the
chunk's first sentence, conversion succeeds and produces within each
chunk samples that all share the fixed length segLength+1 determined by
the first sample (ids, then `<PAD>` cells up to segLength, then the true
length as a trailing field); and `PrePadding.create_batch` only re-sorts
a batch descending by the trailing true length, altering no padding. -/
theorem prePadding_fixed_length_per_chunk (v : Vocab) (S : Nat)
    (data : List (List String))
    (h : ∀ c ∈ chunks S data, ∀ l ∈ c,
        (ids_from_sentence v l).length ≤ segLength v c) :
    prePadCall v S data
        = some ((chunks S data).map
            (fun c => c.map (prePadSample v (segLength v c)))).flatten
      ∧ (∀ c ∈ chunks S data, ∀ l ∈ c,
          (prePadSample v (segLength v c) l).length = segLength v c + 1)
      ∧ (∀ c ∈ chunks S data, ∀ l ∈ c,
          trueLen (prePadSample v (segLength v c) l)
            = (ids_from_sentence v l).length)
      ∧ (∀ batch : List (List Nat), batch ≠ [] →
          (∀ r ∈ batch, r ≠ []) →
          (∀ r ∈ batch, r.length = (batch.headD []).length) →
          createBatchPre batch = some (sortDesc trueLen batch)
            ∧ (sortDesc trueLen batch).Perm batch
            ∧ List.Pairwise (fun a b => trueLen b ≤ trueLen a)
                (sortDesc trueLen batch)) := by
  refine ⟨?_, ?_, ?_, ?_⟩
  · unfold prePadCall
    rw [traverseOpt_eq_map _
      (fun c => c.map (prePadSample v (segLength v c))) _ ?_]
    · rfl
    · intro c hc
      exact traverseOpt_eq_map _ _ c
        (fun l hl => (prePadLine_some v (segLength v c) l (h c hc l hl)).1)
  · intro c hc l hl
    exact (prePadLine_some v (segLength v c) l (h c hc l hl)).2
  · intro c hc l hl
    unfold prePadSample
    rw [trueLen_concat]
  · intro batch hne hrows heqlen
    exact createBatchPre_sorts batch hne hrows heqlen

theorem prePadding_fixed_length_per_chunk_witness :
    (∀ c ∈ chunks 2 [["hello", "world"], ["hello"], ["world"]],
        ∀ l ∈ c, (ids_from_sentence demoVocab l).length
          ≤ segLength demoVocab c) ∧
    (prePadCall demoVocab 2 [["hello", "world"], ["hello"], ["world"]]
        = some ((chunks 2 [["hello", "world"], ["hello"], ["world"]]).map
            (fun c => c.map (prePadSample demoVocab
              (segLength demoVocab c)))).flatten
      ∧ (∀ c ∈ chunks 2 [["hello", "world"], ["hello"], ["world"]],
          ∀ l ∈ c, (prePadSample demoVocab (segLength demoVocab c) l).length
            = segLength demoVocab c + 1)
      ∧ (∀ c ∈ chunks 2 [["hello", "world"], ["hello"], ["world"]],
          ∀ l ∈ c, trueLen (prePadSample demoVocab (segLength demoVocab c) l)
            = (ids_from_sentence demoVocab l).length)
      ∧ (∀ batch : List (List Nat), batch ≠ [] →
          (∀ r ∈ batch, r ≠ []) →
          (∀ r ∈ batch, r.length = (batch.headD []).length) →
          createBatchPre batch = some (sortDesc trueLen batch)
            ∧ (sortDesc trueLen batch).Perm batch
            ∧ List.Pairwise (fun a b => trueLen b ≤ trueLen a)
                (sortDesc trueLen batch))) :=
  ⟨by decide,
   prePadding_fixed_length_per_chunk demoVocab 2
     [["hello", "world"], ["hello"], ["world"]] (by decide)⟩

/-- C5 (counterexample): the batch [[7, 1]] holds one well-formed
converted sample (one id, true length 1).  `create_batch` returns the
row [7, 1] unchanged; that output row has length 2, not the maximum true
length 1 — every output row carries the trailing true-length cell after
the padded id portion, so "all rows have equal length, that length
equals the maximum true length" is off by one as stated. -/
theorem postPadding_row_length_offbyone :
    createBatchPost 9 [[7, 1]] = some [[7, 1]]
      ∧ maxTrueLen [[7, 1]] = 1
      ∧ ¬ (∀ r ∈ ([[7, 1]] : List (List Nat)),
            r.length = maxTrueLen [[7, 1]]) := by
  refine ⟨by decide, by decide, by decide⟩

/-- C5 (amended): for every non-empty batch of well-formed converted
samples, `PostPadding.create_batch` returns a rectangular integer array
whose rows all have the equal length maxTrueLen+1 — the id portion padded
to exactly the maximum true length among the batch's rows, followed by
the trailing true-length cell — rows sorted descending by true length,
and every pad cell equal to the `<PAD>` id. -/
theorem postPadding_create_batch_spec (padId : Nat)
    (data : List (List Nat)) (hne : data ≠ [])
    (hwf : ∀ r ∈ data, WFRow r) :
    ∃ out, createBatchPost padId data = some out
      ∧ out.length = data.length
      ∧ (∀ r ∈ out, r.length = maxTrueLen data + 1)
      ∧ List.Pairwise (fun a b => trueLen b ≤ trueLen a) out
      ∧ (∀ r ∈ out, ∃ ids : List Nat, ids.length ≤ maxTrueLen data ∧
          r = ids ++ List.replicate (maxTrueLen data - ids.length) padId
              ++ [ids.length]) := by
  obtain ⟨out, h1, _, h3, h4, h5, h6⟩ :=
    createBatchPost_ex padId data hne hwf
  exact ⟨out, h1, h3, h4, h5, h6⟩

theorem postPadding_create_batch_spec_witness :
    (([[5, 1], [7, 7, 2]] : List (List Nat)) ≠ []
        ∧ (∀ r ∈ ([[5, 1], [7, 7, 2]] : List (List Nat)), WFRow r)) ∧
    (∃ out, createBatchPost 9 [[5, 1], [7, 7, 2]] = some out
      ∧ out.length = ([[5, 1], [7, 7, 2]] : List (List Nat)).length
      ∧ (∀ r ∈ out, r.length = maxTrueLen [[5, 1], [7, 7, 2]] + 1)
      ∧ List.Pairwise (fun a b => trueLen b ≤ trueLen a) out
      ∧ (∀ r ∈ out, ∃ ids : List Nat,
          ids.length ≤ maxTrueLen [[5, 1], [7, 7, 2]] ∧
          r = ids ++ List.replicate
              (maxTrueLen [[5, 1], [7, 7, 2]] - ids.length) 9
              ++ [ids.length])) :=
  ⟨⟨by decide, by decide⟩,
   postPadding_create_batch_spec 9 [[5, 1], [7, 7, 2]] (by decide)
     (by decide)⟩

/-- C7 (counterexample): `Language.__init__` only checks that train, dev
and test are present; a pipeline mapping that additionally contains the
key extra — whose key set is not exactly train/dev/test — is accepted and
a Language instance is produced, so construction does not validate that
the mapping contains exactly those keys. -/
theorem language_init_accepts_extra_key :
    languageInit "en" demoPipelines demoVocab
        = .ok ⟨"en", demoPipelines, demoVocab⟩
      ∧ "extra" ∈ demoPipelines.map Prod.fst
      ∧ "extra" ∉ ["train", "dev", "test"] := by
  refine ⟨rfl, by decide, by decide⟩

/-- C7 (amended): Language construction validates that the supplied
input-pipeline mapping contains at least the keys train, dev and test;
for every mapping missing any of these keys the caught assertion turns
into `sys.exit()` — a fatal configuration error — and no Language
instance is produced (extra keys beyond the three are not rejected). -/
theorem language_init_requires_keys {α : Type} (identifier : String)
    (input_pipelines : List (String × α)) (vocabulary : Vocab)
    (h : "train" ∉ input_pipelines.map Prod.fst
      ∨ "dev" ∉ input_pipelines.map Prod.fst
      ∨ "test" ∉ input_pipelines.map Prod.fst) :
    languageInit identifier input_pipelines vocabulary
      = .error .exit := by
  unfold languageInit
  rw [if_neg]
  tauto

theorem language_init_requires_keys_witness :
    ("test" ∉ ([("train", ()), ("dev", ())] : List (String × Unit)).map
        Prod.fst) ∧
    languageInit "en" ([("train", ()), ("dev", ())] : List (String × Unit))
        demoVocab = .error .exit :=
  ⟨by decide,
   language_init_requires_keys "en" [("train", ()), ("dev", ())] demoVocab
     (Or.inr (Or.inr (by decide)))⟩

/-- C9: with shuffle=False the MemoryInput batch generator is a pure
function of the converted data stored at construction (the deep copy in
`_segment_generator` keeps `create_batch`'s in-place row mutation away
from the stored list, so every call is a fresh identical full pass); over
any 5-line corpus with max_segment_size=2 and batch_size=2 it yields
exactly 2 full batches of 2 samples each, the leftover fifth sample
being dropped at its segment boundary. -/
theorem memoryInput_five_lines_two_batches (v : Vocab)
    (lines : List (List String)) (h5 : lines.length = 5) :
    ∃ b1 b2, memoryBatches v 2 2 lines = some [b1, b2]
      ∧ b1.length = 2 ∧ b2.length = 2 := by
  rcases lines with _ | ⟨l1, rest⟩
  · simp at h5
  rcases rest with _ | ⟨l2, rest⟩
  · simp at h5
  rcases rest with _ | ⟨l3, rest⟩
  · simp at h5
  rcases rest with _ | ⟨l4, rest⟩
  · simp at h5
  rcases rest with _ | ⟨l5, rest⟩
  · simp at h5
  rcases rest with _ | ⟨l6, rest⟩
  · have hdata : postPadCall v 2 [l1, l2, l3, l4, l5]
        = [convertLine v l1, convertLine v l2, convertLine v l3,
           convertLine v l4, convertLine v l5] := by
      simp [postPadCall, chunks, List.range_succ, convertLine]
    have hgen : memoryBatches v 2 2 [l1, l2, l3, l4, l5]
        = traverseOpt (createBatchPost (padTokenId v))
            [[convertLine v l1, convertLine v l2],
             [convertLine v l3, convertLine v l4]] := by
      unfold memoryBatches memoryBatchGen
      rw [hdata]
      simp [chunks, batchSlices, List.range_succ]
    have hwf1 : ∀ r ∈ [convertLine v l1, convertLine v l2], WFRow r := by
      intro r hr
      rcases List.mem_cons.mp hr with hr | hr
      · subst hr; exact convertLine_wf v l1
      · have : r = convertLine v l2 := by simpa using hr
        subst this; exact convertLine_wf v l2
    have hwf2 : ∀ r ∈ [convertLine v l3, convertLine v l4], WFRow r := by
      intro r hr
      rcases List.mem_cons.mp hr with hr | hr
      · subst hr; exact convertLine_wf v l3
      · have : r = convertLine v l4 := by simpa using hr
        subst this; exact convertLine_wf v l4
    obtain ⟨o1, e1, _, hlen1, _, _, _⟩ := createBatchPost_ex (padTokenId v)
      [convertLine v l1, convertLine v l2] (by simp) hwf1
    obtain ⟨o2, e2, _, hlen2, _, _, _⟩ := createBatchPost_ex (padTokenId v)
      [convertLine v l3, convertLine v l4] (by simp) hwf2
    refine ⟨o1, o2, ?_, by simpa using hlen1, by simpa using hlen2⟩
    rw [hgen]
    simp [traverseOpt, e1, e2]
  · simp at h5

theorem memoryInput_five_lines_two_batches_witness :
    demoLines.length = 5 ∧
    (∃ b1 b2, memoryBatches demoVocab 2 2 demoLines = some [b1, b2]
      ∧ b1.length = 2 ∧ b2.length = 2) :=
  ⟨rfl, memoryInput_five_lines_two_batches demoVocab demoLines rfl⟩

/-- C10: a Parallel corpus never loads: the constructor accepts the
separator argument but never stores it, so for every non-empty data file
`initialize_corpus` hits the unset `_separator_token` attribute while
splitting the first line and fails with AttributeError before producing
any sample. -/
theorem parallel_corpus_never_loads (data_path separator : String)
    (fileLines : List String) (hne : fileLines ≠ []) :
    parallelInitializeCorpus (parallelInit data_path separator) fileLines
      = .error .attributeError := by
  rcases fileLines with _ | ⟨line, rest⟩
  · exact absurd rfl hne
  · rfl

theorem parallel_corpus_never_loads_witness :
    (["a\tb"] : List String) ≠ [] ∧
    parallelInitializeCorpus (parallelInit "data.txt" "\t") ["a\tb"]
      = .error .attributeError :=
  ⟨by decide,
   parallel_corpus_never_loads "data.txt" "\t" ["a\tb"] (by decide)⟩

end Reader
